import Mathlib

/-!
Verification of the cw-voicehub-plugin core (src/main.py): the fetch /
retry / date-fallback pipeline (`FetchThread.run`), the poller state
transitions of `Plugin` (loading / success / failure, retry timer, scroll
enablement), the auto-scroll tick (`Plugin.auto_scroll`) and the row
renderer (`SmoothScrollArea.create_songs_container` /
`create_song_label`).

Conventions of the shallow embedding:
* Calendar dates (`datetime.date` values, totally ordered) are modelled as
  integers; only equality, order and `min` are ever used on them.
* An item's `playDate` field holds the outcome of
  `datetime.fromisoformat(item['playDate'].replace('Z', '+00:00')).date()`:
  `some d` when the ISO-8601 string parses with date part `d`, `none` when
  parsing raises (malformed string, or the key is absent).
* Python's in-place `list.sort(key=...)` is a stable ascending sort, whose
  output is uniquely determined; it is embedded as Mathlib's
  `List.insertionSort`, which is stable and ascending.
* Optional dict fields (`.get(k, default)`) are `Option` fields read with
  `Option.getD`.
-/

namespace VoiceHub

/-- A calendar date (`datetime.date`), modelled by its ordinal number. -/
abbrev Date := Int

/-- The nested `song` object of an API item: `{ title, artist, requester,
voteCount }`, each field possibly absent. -/
structure SongInfo where
  title : Option String
  artist : Option String
  requester : Option String
  voteCount : Option Int
deriving DecidableEq, Repr

/-- One element of the JSON array returned by the API, as
`FetchThread.run` reads it: `playDate` is the parse outcome of the
item's ISO-8601 `playDate` string (see module docstring), `sequence` is
the optional integer read by `x.get('sequence', 0)`, and `song` the
optional nested object read by `song_item.get('song', {})`. -/
structure Item where
  playDate : Option Date
  sequence : Option Int
  song : Option SongInfo
deriving DecidableEq, Repr

/-- The sort key `lambda x: x.get('sequence', 0)` of lines 51 and 72. -/
def seqKey (i : Item) : Int :=
  i.sequence.getD 0

/-- The ordering used by `today_songs.sort(key=lambda x: x.get('sequence', 0))`. -/
def seqLe (a b : Item) : Prop :=
  seqKey a ≤ seqKey b

instance : DecidableRel seqLe := fun a b => Int.decLe _ _

instance : IsTotal Item seqLe := ⟨fun a b => Int.le_total (seqKey a) (seqKey b)⟩

instance : IsTrans Item seqLe := ⟨fun _ _ _ h h' => le_trans h h'⟩

/-- Python's stable ascending `list.sort(key=lambda x: x.get('sequence', 0))`. -/
def sortBySeq (l : List Item) : List Item :=
  List.insertionSort seqLe l

/-- The loop of lines 44-48: walk all items, parse each `playDate`, and
collect those dated `today` in order.  Returns `none` when any item's
`playDate` raises (the exception aborts the whole attempt). -/
def todaySongsLoop (today : Date) : List Item → Option (List Item)
  | [] => some []
  | i :: rest =>
    match i.playDate with
    | none => none
    | some d =>
      match todaySongsLoop today rest with
      | none => none
      | some tl => some (if d = today then i :: tl else tl)

/-- Appends item `i` to the bucket of key `d` in the insertion-ordered
dict `future_dates`, creating the bucket `[i]` at the end when the key is
new (lines 64-66). -/
def insertFutureDate (d : Date) (i : Item) : List (Date × List Item) → List (Date × List Item)
  | [] => [(d, [i])]
  | (d', l) :: rest =>
    if d' = d then (d', l ++ [i]) :: rest else (d', l) :: insertFutureDate d i rest

/-- Reads `future_dates[d]` from the association-list model of the dict;
`[]` when the key is absent (the source only reads present keys). -/
def lookupDate (d : Date) : List (Date × List Item) → List Item
  | [] => []
  | (d', l) :: rest => if d' = d then l else lookupDate d rest

/-- The keys of the `future_dates` dict, in insertion order. -/
def keysOf (fd : List (Date × List Item)) : List Date :=
  fd.map Prod.fst

/-- The loop of lines 61-66: walk all items, parse each `playDate`, and
group the items dated strictly after `today` by date into `future_dates`.
Returns `none` when any item's `playDate` raises. -/
def futureDatesLoop (today : Date) : List Item → List (Date × List Item) → Option (List (Date × List Item))
  | [], acc => some acc
  | i :: rest, acc =>
    match i.playDate with
    | none => none
    | some d =>
      futureDatesLoop today rest (if today < d then insertFutureDate d i acc else acc)

/-- Python's `min` over a nonempty key list, seeded with the first key. -/
def minKey (d : Date) (l : List Date) : Date :=
  l.foldl min d

/-- What one iteration of the retry loop is given by the environment:
a transport/HTTP/JSON-decode error (the `except` path), a 2xx JSON body
that is not a list, or a JSON body that is a list of items. -/
inductive AttemptInput where
  | netError
  | nonList
  | list (items : List Item)
deriving DecidableEq, Repr

/-- The outcome of one `FetchThread.run`: either `fetch_finished` was
emitted with a song list and a display date, or `fetch_failed` was
emitted after the retry budget was exhausted. -/
inductive RunResult where
  | success (songs : List Item) (displayDate : Date)
  | failure
deriving DecidableEq, Repr

/-- One iteration of the `while` loop of `FetchThread.run` (lines 34-84):
`some (songs, d)` when `fetch_finished.emit(songs, d)` fires and the
thread returns, `none` when the iteration falls through to the next
retry.  `today` is `datetime.now(timezone(timedelta(hours=8))).date()`. -/
def runAttempt (today : Date) : AttemptInput → Option (List Item × Date)
  | .netError => none
  | .nonList => none
  | .list items =>
    if items.isEmpty then none
    else
      match todaySongsLoop today items with
      | none => none
      | some today_songs =>
        let today_songs := sortBySeq today_songs
        if today_songs.isEmpty = false then
          some (today_songs, today)
        else
          match futureDatesLoop today items [] with
          | none => none
          | some future_dates =>
            match keysOf future_dates with
            | [] => none
            | k :: ks =>
              let nearest_date := minKey k ks
              let nearest_songs := sortBySeq (lookupDate nearest_date future_dates)
              some (nearest_songs, nearest_date)

/-- The whole of `FetchThread.run`: the retry loop runs one attempt per
element of `attempts` (`max_retries = 3`, so a full run consumes a list
of length 3), emits `fetch_finished` on the first attempt that produces a
result, and emits `fetch_failed` once all attempts fall through. -/
def runFetch (today : Date) : List AttemptInput → RunResult
  | [] => .failure
  | a :: rest =>
    match runAttempt today a with
    | some (songs, d) => .success songs d
    | none => runFetch today rest

/-- The sublist of `items` dated `d` (in original order): what "the items
dated `d`" denotes in the specification. -/
def datedFilter (d : Date) (items : List Item) : List Item :=
  items.filter fun i => decide (i.playDate = some d)

theorem sortBySeq_perm (l : List Item) : (sortBySeq l).Perm l :=
  List.perm_insertionSort seqLe l

theorem sortBySeq_sorted (l : List Item) : List.Sorted seqLe (sortBySeq l) :=
  List.sorted_insertionSort seqLe l

theorem todaySongsLoop_eq_filter (today : Date) :
    ∀ items : List Item, (∀ i ∈ items, (i.playDate).isSome) →
      todaySongsLoop today items = some (datedFilter today items) := by
  intro items
  induction items with
  | nil => intro _; rfl
  | cons i rest ih =>
    intro h
    obtain ⟨d, hd⟩ := Option.isSome_iff_exists.mp (h i (List.mem_cons_self i rest))
    have hrest := ih (fun j hj => h j (List.mem_cons_of_mem i hj))
    by_cases hdt : d = today
    · simp [todaySongsLoop, hd, hrest, datedFilter, List.filter_cons, hdt]
    · simp [todaySongsLoop, hd, hrest, datedFilter, List.filter_cons, hdt]

theorem todaySongsLoop_eq_none (today : Date) :
    ∀ items : List Item, (∃ i ∈ items, i.playDate = none) →
      todaySongsLoop today items = none := by
  intro items
  induction items with
  | nil => rintro ⟨_, h, _⟩; exact absurd h (List.not_mem_nil _)
  | cons i rest ih =>
    rintro ⟨j, hj, hnone⟩
    rcases List.mem_cons.mp hj with rfl | hjr
    · simp [todaySongsLoop, hnone]
    · have := ih ⟨j, hjr, hnone⟩
      cases hp : i.playDate <;> simp [todaySongsLoop, hp, this]

theorem lookupDate_insertFutureDate (a d : Date) (i : Item) :
    ∀ fd : List (Date × List Item),
      lookupDate a (insertFutureDate d i fd) =
        lookupDate a fd ++ (if a = d then [i] else []) := by
  intro fd
  induction fd with
  | nil =>
    by_cases h : d = a
    · subst h; simp [insertFutureDate, lookupDate]
    · have h' : ¬ a = d := fun he => h he.symm
      simp [insertFutureDate, lookupDate, h, h']
  | cons p rest ih =>
    obtain ⟨d', l⟩ := p
    simp only [insertFutureDate]
    by_cases h1 : d' = d
    · subst h1
      simp only [if_pos rfl, lookupDate]
      by_cases h2 : d' = a
      · subst h2; simp
      · have h2' : ¬ a = d' := fun he => h2 he.symm
        simp [h2, h2']
    · simp only [if_neg h1, lookupDate]
      by_cases h2 : d' = a
      · have had : ¬ a = d := fun he => h1 (h2.trans he)
        simp [h2, had]
      · simp [h2, ih]

theorem mem_keysOf_insertFutureDate (a d : Date) (i : Item) :
    ∀ fd : List (Date × List Item),
      (a ∈ keysOf (insertFutureDate d i fd) ↔ a ∈ keysOf fd ∨ a = d) := by
  intro fd
  induction fd with
  | nil => simp [insertFutureDate, keysOf, eq_comm]
  | cons p rest ih =>
    obtain ⟨d', l⟩ := p
    by_cases h1 : d' = d
    · subst h1; simp [insertFutureDate, keysOf, eq_comm]; tauto
    · simp [insertFutureDate, keysOf, h1] at ih ⊢
      tauto

theorem futureDatesLoop_lookup (today : Date) :
    ∀ (items : List Item) (acc fd : List (Date × List Item)),
      futureDatesLoop today items acc = some fd →
      ∀ a : Date, lookupDate a fd =
        lookupDate a acc ++ items.filter (fun i => decide (i.playDate = some a ∧ today < a)) := by
  intro items
  induction items with
  | nil =>
    intro acc fd h a
    simp [futureDatesLoop] at h
    subst h; simp
  | cons i rest ih =>
    intro acc fd h a
    cases hp : i.playDate with
    | none => simp [futureDatesLoop, hp] at h
    | some d =>
      simp only [futureDatesLoop, hp] at h
      by_cases hfut : today < d
      · rw [if_pos hfut] at h
        have := ih _ _ h a
        rw [this, lookupDate_insertFutureDate]
        by_cases had : a = d
        · subst had
          simp [List.filter_cons, hp, hfut, List.append_assoc]
        · have : ¬ (i.playDate = some a ∧ today < a) := by
            rintro ⟨h1, _⟩
            rw [hp] at h1
            exact had (Option.some.inj h1).symm
          simp [List.filter_cons, this, had]
      · rw [if_neg hfut] at h
        have := ih _ _ h a
        rw [this]
        have : ¬ (i.playDate = some a ∧ today < a) := by
          rintro ⟨h1, h2⟩
          rw [hp] at h1
          exact hfut ((Option.some.inj h1) ▸ h2)
        simp [List.filter_cons, this]

theorem futureDatesLoop_keys (today : Date) :
    ∀ (items : List Item) (acc fd : List (Date × List Item)),
      futureDatesLoop today items acc = some fd →
      ∀ a : Date, (a ∈ keysOf fd ↔
        a ∈ keysOf acc ∨ ∃ i ∈ items, i.playDate = some a ∧ today < a) := by
  intro items
  induction items with
  | nil =>
    intro acc fd h a
    simp [futureDatesLoop] at h
    subst h; simp
  | cons i rest ih =>
    intro acc fd h a
    cases hp : i.playDate with
    | none => simp [futureDatesLoop, hp] at h
    | some d =>
      simp only [futureDatesLoop, hp] at h
      by_cases hfut : today < d
      · rw [if_pos hfut] at h
        rw [ih _ _ h a, mem_keysOf_insertFutureDate]
        constructor
        · rintro ((hacc | rfl) | hrest)
          · exact Or.inl hacc
          · exact Or.inr ⟨i, List.mem_cons_self i rest, hp, hfut⟩
          · obtain ⟨j, hj, hja, hjf⟩ := hrest
            exact Or.inr ⟨j, List.mem_cons_of_mem i hj, hja, hjf⟩
        · rintro (hacc | ⟨j, hj, hja, hjf⟩)
          · exact Or.inl (Or.inl hacc)
          · rcases List.mem_cons.mp hj with rfl | hjr
            · rw [hp] at hja
              exact Or.inl (Or.inr (Option.some.inj hja).symm)
            · exact Or.inr ⟨j, hjr, hja, hjf⟩
      · rw [if_neg hfut] at h
        rw [ih _ _ h a]
        constructor
        · rintro (hacc | ⟨j, hj, hja, hjf⟩)
          · exact Or.inl hacc
          · exact Or.inr ⟨j, List.mem_cons_of_mem i hj, hja, hjf⟩
        · rintro (hacc | ⟨j, hj, hja, hjf⟩)
          · exact Or.inl hacc
          · rcases List.mem_cons.mp hj with rfl | hjr
            · rw [hp] at hja
              exact absurd ((Option.some.inj hja) ▸ hfut) (not_not_intro hjf)
            · exact Or.inr ⟨j, hjr, hja, hjf⟩

theorem futureDatesLoop_isSome (today : Date) :
    ∀ (items : List Item) (acc : List (Date × List Item)),
      (∀ i ∈ items, (i.playDate).isSome) →
      ∃ fd, futureDatesLoop today items acc = some fd := by
  intro items
  induction items with
  | nil => intro acc _; exact ⟨acc, rfl⟩
  | cons i rest ih =>
    intro acc h
    obtain ⟨d, hd⟩ := Option.isSome_iff_exists.mp (h i (List.mem_cons_self i rest))
    obtain ⟨fd, hfd⟩ := ih (if today < d then insertFutureDate d i acc else acc)
      (fun j hj => h j (List.mem_cons_of_mem i hj))
    exact ⟨fd, by simp [futureDatesLoop, hd, hfd]⟩

theorem minKey_mem (d : Date) (l : List Date) : minKey d l ∈ d :: l := by
  induction l generalizing d with
  | nil => simp [minKey]
  | cons x xs ih =>
    have h1 : minKey d (x :: xs) = minKey (min d x) xs := rfl
    rw [h1]
    rcases List.mem_cons.mp (ih (min d x)) with h | h
    · rcases min_choice d x with hm | hm
      · rw [h, hm]; exact List.mem_cons_self _ _
      · rw [h, hm]; exact List.mem_cons_of_mem _ (List.mem_cons_self _ _)
    · exact List.mem_cons_of_mem _ (List.mem_cons_of_mem _ h)

theorem minKey_le (d : Date) (l : List Date) : ∀ x ∈ d :: l, minKey d l ≤ x := by
  induction l generalizing d with
  | nil =>
    intro x hx
    rcases List.mem_cons.mp hx with rfl | h
    · simp [minKey]
    · exact absurd h (List.not_mem_nil x)
  | cons y ys ih =>
    intro x hx
    have h1 : minKey d (y :: ys) = minKey (min d y) ys := rfl
    rw [h1]
    rcases List.mem_cons.mp hx with rfl | hx'
    · exact le_trans (ih (min x y) _ (List.mem_cons_self _ _)) (min_le_left x y)
    · rcases List.mem_cons.mp hx' with rfl | hx''
      · exact le_trans (ih (min d x) _ (List.mem_cons_self _ _)) (min_le_right d x)
      · exact ih (min d y) x (List.mem_cons_of_mem _ hx'')

theorem sortBySeq_ne_nil {l : List Item} (h : l ≠ []) : sortBySeq l ≠ [] := by
  intro hs
  have hp := sortBySeq_perm l
  rw [hs] at hp
  exact h hp.symm.eq_nil

theorem futureFilter_eq_datedFilter (today a : Date) (items : List Item) (h : today < a) :
    (items.filter fun i => decide (i.playDate = some a ∧ today < a)) = datedFilter a items := by
  unfold datedFilter
  apply List.filter_congr
  intro i _
  simp [h]

/-- When all items parse and at least one is dated `today`, one loop
iteration emits exactly today's items, sorted by sequence, with `today`
as the display date (lines 39-55). -/
theorem runAttempt_today (today : Date) (items : List Item)
    (hparse : ∀ i ∈ items, (i.playDate).isSome)
    (hw : ∃ i ∈ items, i.playDate = some today) :
    runAttempt today (.list items) = some (sortBySeq (datedFilter today items), today) := by
  obtain ⟨i0, hi0, hp0⟩ := hw
  have hne : items ≠ [] := List.ne_nil_of_mem hi0
  have hmemf : i0 ∈ datedFilter today items := by
    unfold datedFilter
    rw [List.mem_filter]
    exact ⟨hi0, by simp [hp0]⟩
  have hfne : sortBySeq (datedFilter today items) ≠ [] :=
    sortBySeq_ne_nil (List.ne_nil_of_mem hmemf)
  simp only [runAttempt, List.isEmpty_eq_false.mpr hne, Bool.false_eq_true, if_false,
    todaySongsLoop_eq_filter today items hparse]
  simp [hfne]

/-- When all items parse, none is dated `today`, and at least one is
dated strictly after `today`, one loop iteration emits the items of the
minimum future date, sorted by sequence (lines 57-76). -/
theorem runAttempt_future (today : Date) (items : List Item)
    (hparse : ∀ i ∈ items, (i.playDate).isSome)
    (hno : ∀ i ∈ items, i.playDate ≠ some today)
    (hfut : ∃ i ∈ items, ∃ d, i.playDate = some d ∧ today < d) :
    ∃ nd, runAttempt today (.list items) = some (sortBySeq (datedFilter nd items), nd) ∧
      today < nd ∧ (∃ i ∈ items, i.playDate = some nd) ∧
      (∀ i ∈ items, ∀ d, i.playDate = some d → today < d → nd ≤ d) := by
  obtain ⟨i0, hi0, d0, hp0, hf0⟩ := hfut
  have hne : items ≠ [] := List.ne_nil_of_mem hi0
  have hfilter : datedFilter today items = [] := by
    unfold datedFilter
    rw [List.filter_eq_nil_iff]
    intro i hi
    simp [hno i hi]
  obtain ⟨fd, hfd⟩ := futureDatesLoop_isSome today items [] hparse
  have hkeys := futureDatesLoop_keys today items [] fd hfd
  have hlook := futureDatesLoop_lookup today items [] fd hfd
  have hkey0 : d0 ∈ keysOf fd := (hkeys d0).mpr (Or.inr ⟨i0, hi0, hp0, hf0⟩)
  obtain ⟨k, ks, hkk⟩ := List.exists_cons_of_ne_nil (List.ne_nil_of_mem hkey0)
  have hndmem : minKey k ks ∈ keysOf fd := hkk ▸ minKey_mem k ks
  rcases (hkeys (minKey k ks)).mp hndmem with habs | ⟨i1, hi1, hp1, hf1⟩
  · exact absurd habs (by simp [keysOf])
  refine ⟨minKey k ks, ?_, hf1, ⟨i1, hi1, hp1⟩, ?_⟩
  · simp only [runAttempt, List.isEmpty_eq_false.mpr hne, Bool.false_eq_true, if_false,
      todaySongsLoop_eq_filter today items hparse, hfilter, hfd, hkk]
    have : lookupDate (minKey k ks) fd = datedFilter (minKey k ks) items := by
      rw [hlook (minKey k ks), futureFilter_eq_datedFilter today _ items hf1]
      simp [lookupDate]
    simp [sortBySeq, this]
  · intro i hi d hd hdf
    have : d ∈ keysOf fd := (hkeys d).mpr (Or.inr ⟨i, hi, hd, hdf⟩)
    rw [hkk] at this
    exact minKey_le k ks d this

theorem runAttempt_success_shape (today : Date) (a : AttemptInput) (songs : List Item) (d : Date)
    (h : runAttempt today a = some (songs, d)) :
    ∃ l, l ≠ [] ∧ songs = sortBySeq l := by
  cases a with
  | netError => exact absurd h (by simp [runAttempt])
  | nonList => exact absurd h (by simp [runAttempt])
  | list items =>
    simp only [runAttempt] at h
    by_cases he : items.isEmpty
    · rw [if_pos he] at h; exact absurd h (by simp)
    · rw [if_neg he] at h
      cases hts : todaySongsLoop today items with
      | none => rw [hts] at h; exact absurd h (by simp)
      | some ts =>
        rw [hts] at h
        simp only at h
        by_cases hne : (sortBySeq ts).isEmpty = false
        · rw [if_pos hne] at h
          have hp := Option.some.inj h
          refine ⟨ts, ?_, (congrArg Prod.fst hp).symm⟩
          intro hts0
          rw [hts0] at hne
          exact absurd hne (by simp [sortBySeq])
        · rw [if_neg hne] at h
          cases hfd : futureDatesLoop today items [] with
          | none => rw [hfd] at h; exact absurd h (by simp)
          | some fd =>
            rw [hfd] at h
            simp only at h
            cases hk : keysOf fd with
            | nil => rw [hk] at h; exact absurd h (by simp)
            | cons k ks =>
              rw [hk] at h
              simp only at h
              have hp := Option.some.inj h
              refine ⟨lookupDate (minKey k ks) fd, ?_, (congrArg Prod.fst hp).symm⟩
              have hndmem : minKey k ks ∈ keysOf fd := hk ▸ minKey_mem k ks
              rcases (futureDatesLoop_keys today items [] fd hfd (minKey k ks)).mp hndmem with
                habs | ⟨i1, hi1, hp1, hf1⟩
              · exact absurd habs (by simp [keysOf])
              · have hlook := futureDatesLoop_lookup today items [] fd hfd (minKey k ks)
                simp only [lookupDate, List.nil_append] at hlook
                rw [hlook]
                intro hfil
                rw [List.filter_eq_nil_iff] at hfil
                exact hfil i1 hi1 (by simp [hp1, hf1])

theorem runFetch_success_shape (today : Date) :
    ∀ (attempts : List AttemptInput) (songs : List Item) (d : Date),
      runFetch today attempts = .success songs d →
      ∃ l, l ≠ [] ∧ songs = sortBySeq l := by
  intro attempts
  induction attempts with
  | nil => intro s d h; exact absurd h (by simp [runFetch])
  | cons a rest ih =>
    intro s d h
    simp only [runFetch] at h
    cases ha : runAttempt today a with
    | none => rw [ha] at h; exact ih s d h
    | some p =>
      obtain ⟨songs, dd⟩ := p
      rw [ha] at h
      simp only [RunResult.success.injEq] at h
      obtain ⟨rfl, rfl⟩ := h
      exact runAttempt_success_shape today a songs dd ha

/-- C1: for every fetched item list (all playDate strings parsing) in
which at least one item's date part equals today (UTC+8), the run emits
Success whose displayDate is today and whose entries are today's items,
sorted by sequence — a permutation of exactly the today-dated sublist. -/
theorem C1_today_selected (today : Date) (items : List Item) (rest : List AttemptInput)
    (hparse : ∀ i ∈ items, (i.playDate).isSome)
    (hw : ∃ i ∈ items, i.playDate = some today) :
    runFetch today (.list items :: rest) =
        .success (sortBySeq (datedFilter today items)) today ∧
      (sortBySeq (datedFilter today items)).Perm (datedFilter today items) :=
  ⟨by simp [runFetch, runAttempt_today today items hparse hw], sortBySeq_perm _⟩

theorem C1_today_selected_witness :
    (runFetch 10 [.list [⟨some 9, some 1, none⟩, ⟨some 10, some 2, none⟩]] =
        .success (sortBySeq (datedFilter 10 [⟨some 9, some 1, none⟩, ⟨some 10, some 2, none⟩])) 10 ∧
      (sortBySeq (datedFilter 10 [⟨some 9, some 1, none⟩, ⟨some 10, some 2, none⟩])).Perm
        (datedFilter 10 [⟨some 9, some 1, none⟩, ⟨some 10, some 2, none⟩])) :=
  C1_today_selected 10 [⟨some 9, some 1, none⟩, ⟨some 10, some 2, none⟩] []
    (by decide) (by decide)

/-- C2: for every fetched item list (all playDate strings parsing) with
no item dated today but at least one dated strictly after today, the run
emits Success whose displayDate `nd` is the minimum date strictly greater
than today among the items, and whose entries are exactly the items dated
`nd` sorted by sequence; all shown items are dated after today, so no
past-dated item is ever included. -/
theorem C2_nearest_future (today : Date) (items : List Item) (rest : List AttemptInput)
    (hparse : ∀ i ∈ items, (i.playDate).isSome)
    (hno : ∀ i ∈ items, i.playDate ≠ some today)
    (hfut : ∃ i ∈ items, ∃ d, i.playDate = some d ∧ today < d) :
    ∃ nd, runFetch today (.list items :: rest) =
          .success (sortBySeq (datedFilter nd items)) nd ∧
        (sortBySeq (datedFilter nd items)).Perm (datedFilter nd items) ∧
        today < nd ∧ (∃ i ∈ items, i.playDate = some nd) ∧
        (∀ i ∈ items, ∀ d, i.playDate = some d → today < d → nd ≤ d) := by
  obtain ⟨nd, hrun, hlt, hmem, hmin⟩ := runAttempt_future today items hparse hno hfut
  exact ⟨nd, by simp [runFetch, hrun], sortBySeq_perm _, hlt, hmem, hmin⟩

theorem C2_nearest_future_witness :
    ∃ nd, runFetch 10 (.list [⟨some 13, some 1, none⟩, ⟨some 11, some 2, none⟩] :: []) =
          .success (sortBySeq (datedFilter nd [⟨some 13, some 1, none⟩, ⟨some 11, some 2, none⟩])) nd ∧
        (sortBySeq (datedFilter nd [⟨some 13, some 1, none⟩, ⟨some 11, some 2, none⟩])).Perm
          (datedFilter nd [⟨some 13, some 1, none⟩, ⟨some 11, some 2, none⟩]) ∧
        (10 : Date) < nd ∧
        (∃ i ∈ [Item.mk (some 13) (some 1) none, Item.mk (some 11) (some 2) none],
          i.playDate = some nd) ∧
        (∀ i ∈ [Item.mk (some 13) (some 1) none, Item.mk (some 11) (some 2) none],
          ∀ d, i.playDate = some d → 10 < d → nd ≤ d) :=
  C2_nearest_future 10 [⟨some 13, some 1, none⟩, ⟨some 11, some 2, none⟩] []
    (by decide) (by decide) (by decide)

/-- C3: the entries of every Success emitted by the run are sorted
non-decreasing by the sequence key (missing `sequence` counts as 0); in
particular the input ordered [sequence 2, sequence 1] is delivered as
[sequence 1, sequence 2]. -/
theorem C3_sorted_by_sequence :
    (∀ (today : Date) (attempts : List AttemptInput) (songs : List Item) (d : Date),
        runFetch today attempts = .success songs d → List.Sorted seqLe songs) ∧
      runFetch 10 [.list [⟨some 10, some 2, none⟩, ⟨some 10, some 1, none⟩]] =
        .success [⟨some 10, some 1, none⟩, ⟨some 10, some 2, none⟩] 10 := by
  constructor
  · intro today attempts songs d h
    obtain ⟨l, _, rfl⟩ := runFetch_success_shape today attempts songs d h
    exact sortBySeq_sorted l
  · decide

theorem C3_sorted_by_sequence_witness :
    List.Sorted seqLe [Item.mk (some 10) (some 1) none, Item.mk (some 10) (some 2) none] :=
  C3_sorted_by_sequence.1 10 [.list [⟨some 10, some 2, none⟩, ⟨some 10, some 1, none⟩]]
    [⟨some 10, some 1, none⟩, ⟨some 10, some 2, none⟩] 10 (by decide)

/-- C10: the run never emits `fetch_finished` with an empty song list:
the empty-today and empty-future branches fall through to retry or
failure instead. -/
theorem C10_success_nonempty (today : Date) (attempts : List AttemptInput)
    (songs : List Item) (d : Date)
    (h : runFetch today attempts = .success songs d) : songs ≠ [] := by
  obtain ⟨l, hl, rfl⟩ := runFetch_success_shape today attempts songs d h
  exact sortBySeq_ne_nil hl

theorem C10_success_nonempty_witness :
    ([⟨some 10, some 1, none⟩] : List Item) ≠ [] :=
  C10_success_nonempty 10 [.list [⟨some 10, some 1, none⟩]]
    [⟨some 10, some 1, none⟩] 10 (by decide)

/-- The per-attempt condition of claim C4: a transport/HTTP error, a
non-list or empty-list body, or a well-formed item list all of whose
items are dated today-or-earlier with none dated today. -/
def failingAttempt (today : Date) (a : AttemptInput) : Prop :=
  a = .netError ∨ a = .nonList ∨
    ∃ items, a = .list items ∧
      (items = [] ∨ ∀ i ∈ items, ∃ d, i.playDate = some d ∧ d ≤ today ∧ d ≠ today)

theorem runAttempt_eq_none_of_failing (today : Date) (a : AttemptInput)
    (h : failingAttempt today a) : runAttempt today a = none := by
  rcases h with rfl | rfl | ⟨items, rfl, hitems⟩
  · rfl
  · rfl
  rcases hitems with rfl | hall
  · rfl
  by_cases hne : items = []
  · subst hne; rfl
  have hparse : ∀ i ∈ items, (i.playDate).isSome := by
    intro i hi
    obtain ⟨d, hd, _⟩ := hall i hi
    simp [hd]
  have hfilter : datedFilter today items = [] := by
    unfold datedFilter
    rw [List.filter_eq_nil_iff]
    intro i hi
    obtain ⟨d, hd, _, hdne⟩ := hall i hi
    simp [hd, hdne]
  obtain ⟨fd, hfd⟩ := futureDatesLoop_isSome today items [] hparse
  have hkeys := futureDatesLoop_keys today items [] fd hfd
  have hkempty : keysOf fd = [] := by
    rw [List.eq_nil_iff_forall_not_mem]
    intro a ha
    rcases (hkeys a).mp ha with h0 | ⟨i, hi, hp, hf⟩
    · simp [keysOf] at h0
    · obtain ⟨d, hd, hle, _⟩ := hall i hi
      rw [hd] at hp
      have hda : d = a := Option.some.inj hp
      exact absurd hf (not_lt.mpr (hda ▸ hle))
  simp [runAttempt, List.isEmpty_eq_false.mpr hne,
    todaySongsLoop_eq_filter today items hparse, hfilter, hfd, hkempty, sortBySeq]

/-- C4: when each of the 3 attempts yields a transport/HTTP error, a
non-list or empty-list body, or a well-formed list whose items are all
dated today-or-earlier with none dated today, the run signals failure
after consuming exactly the 3 attempts and never signals Success. -/
theorem C4_three_failures (today : Date) (a1 a2 a3 : AttemptInput)
    (h1 : failingAttempt today a1) (h2 : failingAttempt today a2)
    (h3 : failingAttempt today a3) :
    runFetch today [a1, a2, a3] = .failure := by
  simp [runFetch, runAttempt_eq_none_of_failing today a1 h1,
    runAttempt_eq_none_of_failing today a2 h2,
    runAttempt_eq_none_of_failing today a3 h3]

theorem C4_three_failures_witness :
    runFetch 10 [.netError, .nonList, .list [⟨some 9, some 1, none⟩]] = .failure :=
  C4_three_failures 10 .netError .nonList (.list [⟨some 9, some 1, none⟩])
    (Or.inl rfl) (Or.inr (Or.inl rfl))
    (Or.inr (Or.inr ⟨[⟨some 9, some 1, none⟩], rfl, Or.inr (by decide)⟩))

/-- C8: an attempt whose body contains an item with an unparsable
`playDate` is aborted (the exception is caught) and counted as one failed
attempt: the run simply continues with the remaining retry budget, and no
exception escapes (`runFetch` is total). -/
theorem C8_malformed_playdate (today : Date) (items : List Item) (rest : List AttemptInput)
    (i : Item) (hi : i ∈ items) (hbad : i.playDate = none) :
    runAttempt today (.list items) = none ∧
      runFetch today (.list items :: rest) = runFetch today rest := by
  have hnone : runAttempt today (.list items) = none := by
    have hne : items ≠ [] := List.ne_nil_of_mem hi
    simp [runAttempt, List.isEmpty_eq_false.mpr hne,
      todaySongsLoop_eq_none today items ⟨i, hi, hbad⟩]
  exact ⟨hnone, by simp [runFetch, hnone]⟩

theorem C8_malformed_playdate_witness :
    runAttempt 10 (.list [⟨none, some 1, none⟩]) = none ∧
      runFetch 10 [.list [⟨none, some 1, none⟩], .netError, .netError] =
        runFetch 10 [.netError, .netError] :=
  C8_malformed_playdate 10 [⟨none, some 1, none⟩] [.netError, .netError]
    ⟨none, some 1, none⟩ (by decide) rfl

/-- The dict read `song_item.get('song', {})` of line 214: a missing
`song` object behaves as an empty dict, i.e. all fields missing. -/
def songOf (i : Item) : SongInfo :=
  i.song.getD ⟨none, none, none, none⟩

/-- Lines 212-238, `create_song_label`: the text of one rendered row.
The `sequence` argument is the value passed by the caller (the 1-based
enumeration index of line 206), and the four song fields fall back to
their defaults when missing. -/
def create_song_label (song_item : Item) (sequence : Nat) : String :=
  let song := songOf song_item
  let artist := song.artist.getD ("未知艺术家")
  let title := song.title.getD ("未知歌曲")
  let requester := song.requester.getD ("未知")
  let vote_count := song.voteCount.getD 0
  toString sequence ++ (". ") ++ artist ++ (" - ") ++ title ++ (" - ") ++ requester ++
    (" - 热度:") ++ toString vote_count

/-- The loop of lines 205-208: `for i, song_item in enumerate(songs, 1)`
builds one label per song, numbering rows from `i`. -/
def containerRows (i : Nat) : List Item → List String
  | [] => []
  | s :: rest => create_song_label s i :: containerRows (i + 1) rest

/-- Lines 189-210, `create_songs_container`, reduced to the row texts it
mounts (styling and layout are rendering details). -/
def create_songs_container (songs : List Item) : List String :=
  containerRows 1 songs

/-- Row text as claim C9 reads the format string: with `{sequence}` taken
from the entry's own `sequence` field (the spec data model's field),
defaulting to 0 when missing as the sort key does. -/
def seqFieldRowText (song_item : Item) : String :=
  let song := songOf song_item
  let artist := song.artist.getD ("未知艺术家")
  let title := song.title.getD ("未知歌曲")
  let requester := song.requester.getD ("未知")
  let vote_count := song.voteCount.getD 0
  toString (song_item.sequence.getD 0) ++ (". ") ++ artist ++ (" - ") ++ title ++ (" - ") ++
    requester ++ (" - 热度:") ++ toString vote_count

/-- Row text as the amended claim C9 states it: the row at 1-based
position `pos` starts with `pos`, then artist, title, requester and
voteCount with defaults "未知艺术家", "未知歌曲", "未知", 0. -/
def positionRowText (pos : Nat) (song_item : Item) : String :=
  let song := songOf song_item
  toString pos ++ (". ") ++ (song.artist.getD ("未知艺术家")) ++ (" - ") ++
    (song.title.getD ("未知歌曲")) ++ (" - ") ++ (song.requester.getD ("未知")) ++
    (" - 热度:") ++ toString (song.voteCount.getD 0)

/-- C9 counterexample: an entry whose `sequence` field is 2, rendered
alone, gets row text "1. ..." (its enumeration position), not the
"2. ..." the claim's format string computes from the sequence field. -/
theorem C9_counterexample :
    create_songs_container
        [⟨none, some 2, some ⟨some ("T"), some ("A"), some ("R"), some 3⟩⟩] ≠
      [seqFieldRowText ⟨none, some 2, some ⟨some ("T"), some ("A"), some ("R"), some 3⟩⟩] := by
  decide

/-- C9 (amended): the row rendered at 1-based position `pos` has text
`"{pos}. {artist} - {title} - {requester} - 热度:{voteCount}"` with
defaults "未知艺术家", "未知歌曲", "未知", 0 for missing fields; the
leading number is the enumeration position, not the entry's `sequence`
field. -/
theorem C9_rows_by_position (songs : List Item) :
    create_songs_container songs =
      (List.enumFrom 1 songs).map fun p => positionRowText p.1 p.2 := by
  show containerRows 1 songs = _
  generalize 1 = n
  induction songs generalizing n with
  | nil => rfl
  | cons s rest ih =>
    show create_song_label s n :: containerRows (n + 1) rest = _
    rw [List.enumFrom_cons, List.map_cons, ih (n + 1)]
    rfl

/-- The entry list handed to one `update_widget_content(songs, loading,
error, display_date)` call: what the widget currently renders. -/
structure RenderCall where
  songs : List Item
  loading : Bool
  error : Bool
  display_date : Option Date
deriving DecidableEq, Repr

/-- The fixed loading placeholder entry of lines 352-360 (its `played`
flag is never read by the core and is not modelled). -/
def loading_songs : List Item :=
  [⟨none, some 1, some ⟨some ("正在加载中..."), some ("LaoShui"), some ("系统"), none⟩⟩]

/-- The fixed error placeholder entry of lines 364-372. -/
def error_songs : List Item :=
  [⟨none, some 1, some ⟨some ("网络连接异常"), some ("5分钟后自动重试"), some ("LaoShui"), none⟩⟩]

/-- What the scroll area body shows. -/
inductive RenderedBody where
  | rows (texts : List String)
  | noSongs
deriving DecidableEq, Repr

/-- Lines 141-167 of `set_songs`: a non-empty list renders its rows, an
empty list renders the "暂无歌曲排期" placeholder label. -/
def set_songs_body (songs : List Item) : RenderedBody :=
  if songs.isEmpty then .noSongs else .rows (create_songs_container songs)

/-- Lines 341-378, `create_scroll_area`: the loading and error states
render their fixed placeholder entries, otherwise the fetched songs are
rendered. -/
def create_scroll_area_body (songs : List Item) (loading error : Bool) : RenderedBody :=
  if loading then set_songs_body loading_songs
  else if error then set_songs_body error_songs
  else set_songs_body songs

/-- The body the widget displays for the current render call. -/
def render (c : RenderCall) : RenderedBody :=
  create_scroll_area_body c.songs c.loading c.error

/-- The mutable state of `Plugin` that the claims are about:
`enable_scrolling`, `scroll_position`, whether (and for how many ms) the
retry timer is armed, and the arguments of the last render. -/
structure PluginState where
  enable_scrolling : Bool
  scroll_position : Int
  retry_timer_ms : Option Int
  shown : RenderCall
deriving DecidableEq, Repr

/-- Lines 269-272, `show_loading`: disable scrolling and render the
loading placeholder. -/
def show_loading (s : PluginState) : PluginState :=
  { s with enable_scrolling := false, shown := ⟨[], true, false, none⟩ }

/-- Lines 274-282, `update_songs`: show the loading state synchronously,
stop any pending retry timer, then start the fetch thread. -/
def update_songs (s : PluginState) : PluginState :=
  { (show_loading s) with retry_timer_ms := none }

/-- Lines 284-288, `handle_success`: enable scrolling (unconditionally)
and render the fetched songs with their display date. -/
def handle_success (songs : List Item) (display_date : Date) (s : PluginState) : PluginState :=
  { s with enable_scrolling := true, shown := ⟨songs, false, false, some display_date⟩ }

/-- Lines 290-295, `handle_failure`: disable scrolling, render the error
placeholder, and arm the retry timer for 5 minutes. -/
def handle_failure (s : PluginState) : PluginState :=
  { s with
    enable_scrolling := false
    shown := ⟨[], false, true, none⟩
    retry_timer_ms := some (5 * 60 * 1000) }

/-- The state after `Plugin.__init__` (lines 242-267): scroll position 0,
scrolling disabled, retry timer not started, loading state shown. -/
def initState : PluginState :=
  show_loading
    { enable_scrolling := false, scroll_position := 0, retry_timer_ms := none,
      shown := ⟨[], true, false, none⟩ }

/-- One event the host delivers to the `Plugin`: a poll trigger (initial
`execute`, the 30-minute periodic timer, or the retry timer), or the
completion signal of a `FetchThread.run` with the outcome that run
produced. -/
inductive Step : PluginState → PluginState → Prop
  | trigger (s : PluginState) : Step s (update_songs s)
  | fetched_success (s : PluginState) (today : Date) (attempts : List AttemptInput)
      (songs : List Item) (d : Date) (h : runFetch today attempts = .success songs d) :
      Step s (handle_success songs d s)
  | fetched_failure (s : PluginState) (today : Date) (attempts : List AttemptInput)
      (h : runFetch today attempts = .failure) : Step s (handle_failure s)

/-- The states the plugin can actually be in. -/
inductive Reachable : PluginState → Prop
  | init : Reachable initState
  | step {s s' : PluginState} : Reachable s → Step s s' → Reachable s'

theorem runFetch_success_ne_nil (today : Date) (attempts : List AttemptInput)
    (songs : List Item) (d : Date)
    (h : runFetch today attempts = .success songs d) : songs ≠ [] := by
  obtain ⟨l, hl, rfl⟩ := runFetch_success_shape today attempts songs d h
  exact sortBySeq_ne_nil hl

/-- C5 counterexample: if a `Success([])` were delivered,
`handle_success` would enable scrolling unconditionally (line 286), even
though the rendered body is the no-schedule placeholder — contradicting
the claim's "scrolling disabled" for that scenario. -/
theorem C5_counterexample :
    (handle_success [] 0 initState).enable_scrolling = true ∧
      (handle_success [] 0 initState).shown.songs = [] ∧
      render (handle_success [] 0 initState).shown = .noSongs := by
  decide

/-- C5 (amended): in every reachable state, scrolling is enabled iff the
widget displays fetched entries (neither the loading nor the error
placeholder) and they are non-empty; `Success([])` never occurs, because
the fetcher only emits non-empty lists, and an empty entry list renders
the no-schedule placeholder — but `handle_success` enables scrolling
unconditionally, so a hypothetical empty success would leave scrolling
enabled (see the counterexample). -/
theorem C5_scroll_iff_displaying (s : PluginState) (h : Reachable s) :
    (s.enable_scrolling = true ↔
        s.shown.loading = false ∧ s.shown.error = false ∧ s.shown.songs ≠ []) ∧
      set_songs_body [] = .noSongs := by
  refine ⟨?_, rfl⟩
  induction h with
  | init => simp [initState, show_loading]
  | step hr hst ih =>
    cases hst with
    | trigger => simp [update_songs, show_loading]
    | fetched_success today attempts songs d hrun =>
      have hne : songs ≠ [] := runFetch_success_ne_nil today attempts songs d hrun
      simp [handle_success, hne]
    | fetched_failure today attempts hrun => simp [handle_failure]

theorem C5_scroll_iff_displaying_witness :
    (initState.enable_scrolling = true ↔
        initState.shown.loading = false ∧ initState.shown.error = false ∧
          initState.shown.songs ≠ []) ∧
      set_songs_body [] = .noSongs :=
  C5_scroll_iff_displaying initState Reachable.init

/-- C6: every NetworkFailure transition renders the error placeholder,
disables scrolling and arms the retry timer for 5 minutes (300000 ms =
300 s); every poll trigger synchronously renders the loading placeholder
and cancels any pending retry timer before the fetch starts. -/
theorem C6_failure_and_trigger (s : PluginState) :
    ((handle_failure s).shown.error = true ∧
        render (handle_failure s).shown = .rows (create_songs_container error_songs) ∧
        (handle_failure s).enable_scrolling = false ∧
        (handle_failure s).retry_timer_ms = some (5 * 60 * 1000) ∧
        (5 * 60 * 1000 : Int) = 300 * 1000) ∧
      ((update_songs s).shown.loading = true ∧
        render (update_songs s).shown = .rows (create_songs_container loading_songs) ∧
        (update_songs s).enable_scrolling = false ∧
        (update_songs s).retry_timer_ms = none) := by
  refine ⟨⟨rfl, rfl, rfl, ?_, by decide⟩, rfl, rfl, rfl, rfl⟩
  rfl

/-- Lines 390-414, the body of `Plugin.auto_scroll` once the widget and
scrollbar lookups succeed: a no-op when scrolling is disabled; wraps to 0
once the position has reached a positive maximum; resets to 0 when the
maximum is 0; otherwise advances by 1. -/
def auto_scroll (enable_scrolling : Bool) (max_value scroll_position : Int) : Int :=
  if enable_scrolling = false then scroll_position
  else if 0 < max_value ∧ max_value ≤ scroll_position then 0
  else if max_value = 0 then 0
  else scroll_position + 1

/-- Iterated 100 ms ticks of `auto_scroll`. -/
def auto_scroll_iter (e : Bool) (m : Int) : Nat → Int → Int
  | 0, p => p
  | n + 1, p => auto_scroll_iter e m n (auto_scroll e m p)

/-- C7: with maximum 0 the position stays 0 after any number of ticks;
with maximum 50 and scrolling enabled, from 0 the position is k after k
ticks for k ≤ 50 and returns to 0 after exactly 51 ticks; one enabled
tick below the maximum increments by 1; a disabled tick is a no-op. -/
theorem C7_auto_scroll :
    (∀ (e : Bool) (n : Nat), auto_scroll_iter e 0 n 0 = 0) ∧
      (∀ k : Nat, k < 51 → auto_scroll_iter true 50 k 0 = (k : Int)) ∧
      auto_scroll_iter true 50 51 0 = 0 ∧
      (∀ p : Int, 0 ≤ p → p < 50 → auto_scroll true 50 p = p + 1) ∧
      (∀ (m p : Int), auto_scroll false m p = p) := by
  refine ⟨?_, by decide, by decide, ?_, fun m p => rfl⟩
  · intro e n
    induction n with
    | zero => rfl
    | succ n ih =>
      show auto_scroll_iter e 0 n (auto_scroll e 0 0) = 0
      have h0 : auto_scroll e 0 0 = 0 := by cases e <;> decide
      rw [h0]
      exact ih
  · intro p h0 h1
    have hc : ¬(0 < (50 : Int) ∧ 50 ≤ p) := fun hand => absurd h1 (not_lt.mpr hand.2)
    unfold auto_scroll
    rw [if_neg (by decide : ¬(true = false)), if_neg hc, if_neg (by decide : ¬((50 : Int) = 0))]

theorem C7_auto_scroll_witness :
    auto_scroll_iter true 0 7 0 = 0 ∧ auto_scroll_iter true 50 50 0 = (50 : Int) ∧
      auto_scroll true 50 49 = 50 ∧ auto_scroll false 50 3 = 3 :=
  ⟨C7_auto_scroll.1 true 7, C7_auto_scroll.2.1 50 (by decide),
    C7_auto_scroll.2.2.2.1 49 (by decide) (by decide), C7_auto_scroll.2.2.2.2 50 3⟩

end VoiceHub
